import Mathlib

/-!
Verification of the biowatch inference-orchestration pipeline
(`python-environments/common`): detection utilities, video frame sampling,
the streaming orchestrator mixins, and the two model servers (Manas,
DeepFaune).

The Python source is shallowly embedded: pure functions become Lean
functions over `ℚ` (Python floats are treated as exact rationals), Python
dicts become insertion-ordered association lists, fallible code returns
`Except String`, and Python's stable `sorted(..., reverse=True)` is
embedded as Mathlib's stable `List.insertionSort` with the flipped
comparison (extensionally equal to any stable descending sort).

The file has two parts: first all definitions (the embedding), then the
theorems about them.
-/

namespace Biowatch

/-! # Part 1: the embedding -/

/-- Python `int(q)` on a rational: truncation toward zero (`Int.tdiv` on the
reduced fraction `num/den` is exactly Python's `int()` semantics). -/
def pyInt (q : ℚ) : ℤ := Int.tdiv q.num (q.den : ℤ)

/-- Embedding of Python `sorted(l, key=key, reverse=True)`.  Python's sort is
stable; `List.insertionSort` with the flipped comparison is stable in exactly
the same way, hence extensionally equal to it. -/
def pySortedDesc (key : α → ℚ) (l : List α) : List α :=
  List.insertionSort (fun a b => key b ≤ key a) l

/-- The first element of `l` attaining the maximal key (ties go to the
earliest element), or `none` for the empty list. -/
def firstMaxBy (key : α → ℚ) : List α → Option α
  | [] => none
  | x :: xs =>
    match firstMaxBy key xs with
    | none => some x
    | some m => if key m ≤ key x then some x else some m

/-- ASCII model of Python's `str.lower()` (the file extensions at issue are
ASCII). -/
def pyLowerChar (c : Char) : Char :=
  if 'A' ≤ c ∧ c ≤ 'Z' then Char.ofNat (c.toNat + 32) else c

def pyLower (s : String) : String := String.mk (s.toList.map pyLowerChar)

/-- `pathlib.Path(filepath).name`: the part after the last `/`. -/
def pathName (filepath : String) : String :=
  String.mk ((filepath.toList.reverse.takeWhile (fun c => c ≠ '/')).reverse)

/-- `pathlib.Path(filepath).suffix`: from the last dot of the name on, unless
that dot is the name's first or last character. -/
def pathSuffix (filepath : String) : String :=
  let name := (pathName filepath).toList
  let i := ((List.range name.length).filter (fun i => name.getD i ' ' == '.')).getLast?
  match i with
  | none => ""
  | some i => if 0 < i ∧ i + 1 < name.length then String.mk (name.drop i) else ""

/-- `video_utils.VIDEO_EXTENSIONS` (the same set lives in `utils.py`). -/
def VIDEO_EXTENSIONS : List String :=
  [".mp4", ".mkv", ".mov", ".webm", ".avi", ".m4v"]

/-- `video_utils.is_video_file` (identical copy in `utils.py`). -/
def is_video_file (filepath : String) : Bool :=
  VIDEO_EXTENSIONS.contains (pyLower (pathSuffix filepath))

/-! ## Detection records (`detection_utils.py`)

A detection record is the dict
`{"class": ..., "label": ..., "conf": ..., "xyxy": ..., "xywhn": ...}`
built by `to_detection_record`.  `class` is a Lean keyword, so the field is
named `cls`. -/

structure DetectionRecord where
  cls : ℤ
  label : String
  conf : ℚ
  xyxy : List ℚ
  xywhn : List ℚ
deriving DecidableEq

/-- `detection_utils.to_detection_record` (identical copies live in
`run_manas_server.py` and `run_deepfaune_server.py`).  The Python dict lookup
`class_label_mapping[class_instance]` is modelled by a total function; the
claims only concern mappings that cover the used ids. -/
def to_detection_record (conf : ℚ) (class_instance : ℤ) (xywhn xyxy : List ℚ)
    (class_label_mapping : ℤ → String) : DetectionRecord :=
  { cls := class_instance
    label := class_label_mapping class_instance
    conf := conf
    xyxy := xyxy
    xywhn := xywhn }

/-- `detection_utils.select_best_animal_detection` (identical copies live in
`run_manas_server.py` and `run_deepfaune_server.py`): filter the records
labeled "animal", sort them by `conf` descending with Python's stable
`sorted(..., reverse=True)`, and return the first of the sorted list, or
`None` when there is none (`head?` is exactly
`None if not sorted_animal_records else sorted_animal_records[0]`). -/
def select_best_animal_detection (detection_records : List DetectionRecord) :
    Option DetectionRecord :=
  let animal_records := detection_records.filter (fun r => r.label == "animal")
  let sorted_animal_records := pySortedDesc (fun r => r.conf) animal_records
  sorted_animal_records.head?

/-! ## Top-k classifications (`detection_utils.to_classifications_record`)

`sorted(range(len(scores)), key=lambda i: scores[i], reverse=True)[:k]`:
a stable descending sort of the class indices by score, truncated to `k`.
Because the indices are distinct and initially increasing, the stable sort
coincides with sorting by the total order "higher score first, ties by
lower index first" (`idxLe`), which is what the proofs below exploit. -/

structure ClassificationsRecord where
  labels : List String
  scores : List ℚ
deriving DecidableEq

/-- The top-k class indices of `to_classifications_record`. -/
def pyTopKIndices (scores : List ℚ) (k : Nat) : List Nat :=
  (pySortedDesc (fun i => scores.getD i 0) (List.range scores.length)).take k

/-- `detection_utils.to_classifications_record` (identical copies live in
`run_manas_server.py` and `run_deepfaune_server.py`); the Python default is
`k = 5`, which call sites pass explicitly here. -/
def to_classifications_record (scores : List ℚ) (class_label_mapping : Nat → String)
    (k : Nat) : ClassificationsRecord :=
  { labels := (pyTopKIndices scores k).map class_label_mapping
    scores := (pyTopKIndices scores k).map (fun i => scores.getD i 0) }

/-- The total order "higher key first; on equal keys, lower index first". -/
def idxLe (key : Nat → ℚ) (i j : Nat) : Prop :=
  key j < key i ∨ (key i = key j ∧ i ≤ j)

instance (key : Nat → ℚ) : DecidableRel (idxLe key) := fun i j => by
  unfold idxLe; infer_instance

/-! ## Square crop (`detection_utils.crop_square_cv_to_pil`)

The image is a numpy array: a shape (list of dimension sizes) together with
a pixel function over (row, column, channel).  The crop result is a PIL
image, again dimensions plus a pixel function.  Identical copies of the
function live in `run_manas_server.py` and `run_deepfaune_server.py`. -/

structure NpImage where
  shape : List Nat
  pix : Nat → Nat → Nat → Nat

structure PilImage where
  height : Nat
  width : Nat
  pix : Nat → Nat → Nat → Nat

/-- Resolution of one bound of a basic Python/numpy slice `a[lo:hi]` on an
axis of length `n`: a negative index counts from the end (and is clamped at
0), a nonnegative one is clamped at `n`. -/
def pySliceBound (i : ℤ) (n : Nat) : Nat :=
  if i < 0 then ((n : ℤ) + i).toNat else min i.toNat n

/-- `detection_utils.crop_square_cv_to_pil`.  Control flow of the source:
unpack `x1, y1, x2, y2 = xyxy` (raises unless exactly 4 values); expand the
shorter box side by `int((longer - shorter) / 2)` on each end; unpack
`height, width, _ = array_image.shape` (raises unless the array has exactly
3 dimensions); take the numpy slice
`[max(0, int(y1)) : min(int(y2), height), max(0, int(x1)) : min(int(x2), width)]`
(never raises); reorder channels with the fancy index `(2, 1, 0)` (raises
iff the channel axis has fewer than 3 entries); `Image.fromarray` is
modelled as total. -/
def crop_square_cv_to_pil (array_image : NpImage) (xyxy : List ℚ) :
    Except String PilImage :=
  match xyxy with
  | [x1, y1, x2, y2] =>
    let xsize := x2 - x1
    let ysize := y2 - y1
    let ey : ℚ := if xsize > ysize then (pyInt ((xsize - ysize) / 2) : ℚ) else 0
    let ex : ℚ := if ysize > xsize then (pyInt ((ysize - xsize) / 2) : ℚ) else 0
    let y1 := y1 - ey
    let y2 := y2 + ey
    let x1 := x1 - ex
    let x2 := x2 + ex
    match array_image.shape with
    | [height, width, channels] =>
      let rlo := pySliceBound (max 0 (pyInt y1)) height
      let rhi := pySliceBound (min (pyInt y2) (height : ℤ)) height
      let clo := pySliceBound (max 0 (pyInt x1)) width
      let chi := pySliceBound (min (pyInt x2) (width : ℤ)) width
      if channels < 3 then
        Except.error "IndexError: index 2 is out of bounds for axis 2"
      else
        Except.ok
          { height := rhi - rlo
            width := chi - clo
            pix := fun i j c => array_image.pix (rlo + i) (clo + j) (2 - c) }
    | _ => Except.error "ValueError: shape does not unpack into height, width, channels"
  | _ => Except.error "ValueError: xyxy does not unpack into four values"

/-! ## Python dicts (for `propagate_extra_fields`)

An insertion-ordered association list: `dset` overwrites the value at the
key's existing position or appends a fresh key at the end, exactly a CPython
dict.  Records and request instances are string-keyed dicts (`PyObj`); the
intermediate `new_predictions` dict maps filepaths to records. -/

def dfind (d : List (String × V)) (k : String) : Option V :=
  (d.find? (fun p => p.1 == k)).map (fun p => p.2)

def dmem (d : List (String × V)) (k : String) : Bool :=
  (d.find? (fun p => p.1 == k)).isSome

def dset : List (String × V) → String → V → List (String × V)
  | [], k, v => [(k, v)]
  | (k₁, v₁) :: rest, k, v =>
    if k₁ == k then (k, v) :: rest else (k₁, v₁) :: dset rest k v

/-- A Python dict with string keys and string values: the model of one
request instance and of one prediction record for the extra-field
propagation claims (only `filepath` and the extra fields matter there). -/
abbrev PyObj := List (String × String)

/-- The dict comprehension of `propagate_extra_fields`:
`new_predictions = {p["filepath"]: p for p in predictions}`.  Re-keys the
records by filepath; a repeated filepath keeps the first occurrence's
position but the last record.  `p["filepath"]` raises when absent. -/
def buildByFilepath : List (String × PyObj) → List PyObj →
    Except String (List (String × PyObj))
  | d, [] => Except.ok d
  | d, p :: rest =>
    match dfind p "filepath" with
    | none => Except.error "KeyError: filepath"
    | some fp => buildByFilepath (dset d fp p) rest

/-- One iteration of the inner loop of `propagate_extra_fields`:
`if field in instance: new_predictions[instance["filepath"]][field] = instance[field]`. -/
def applyField (inst : PyObj) (field : String) (d : List (String × PyObj)) :
    Except String (List (String × PyObj)) :=
  if dmem inst field then
    match dfind inst "filepath" with
    | none => Except.error "KeyError: filepath"
    | some fp =>
      match dfind d fp with
      | none => Except.error "KeyError: filepath not among predictions"
      | some r =>
        match dfind inst field with
        | none => Except.error "unreachable: the field was checked present"
        | some v => Except.ok (dset d fp (dset r field v))
  else Except.ok d

def applyFields (inst : PyObj) : List String → List (String × PyObj) →
    Except String (List (String × PyObj))
  | [], d => Except.ok d
  | f :: fs, d =>
    match applyField inst f d with
    | Except.error e => Except.error e
    | Except.ok d₁ => applyFields inst fs d₁

def applyInstances (extra_fields : List String) : List PyObj →
    List (String × PyObj) → Except String (List (String × PyObj))
  | [], d => Except.ok d
  | inst :: rest, d =>
    match applyFields inst extra_fields d with
    | Except.error e => Except.error e
    | Except.ok d₁ => applyInstances extra_fields rest d₁

/-- The filepath of a record or instance dict (total; the claims carry the
hypothesis that the key is present). -/
def fpOf (p : PyObj) : String := (dfind p "filepath").getD ""

/-- Deduplication keeping the first occurrence of each element — the key
order of a Python dict built by repeated insertion. -/
def firstDedup : List String → List String
  | [] => []
  | x :: xs => x :: (firstDedup xs).filter (fun y => y != x)

/-- The effect of one instance's inner field loop on one record: every extra
field present on the instance is written onto the record, in field order. -/
def recUpdate (inst : PyObj) (fields : List String) (r : PyObj) : PyObj :=
  fields.foldl (fun r f => if dmem inst f then dset r f ((dfind inst f).getD "") else r) r

/-- `detection_utils.propagate_extra_fields` (identical method
`_propagate_extra_fields` on both server classes): re-key the predictions by
filepath, copy every present extra field of every instance onto the record
under the instance's filepath (last write wins), and return the dict's
values. -/
def propagate_extra_fields (extra_fields : List String) (instances : List PyObj)
    (predictions : List PyObj) : Except String (List PyObj) :=
  match buildByFilepath [] predictions with
  | Except.error e => Except.error e
  | Except.ok d =>
    match applyInstances extra_fields instances d with
    | Except.error e => Except.error e
    | Except.ok d₁ => Except.ok (d₁.map (fun p => p.2))

/-! ## Video frame sampling (`video_utils.extract_frames_at_fps`, identical
copy in `utils.py`)

A video source is abstracted by what OpenCV reports: whether the capture
opens, the reported fps, the reported frame count, and the list of frames
`cap.read()` yields before returning `ret = False`. -/

structure VideoSource (F : Type) where
  opens : Bool
  fps : ℚ
  frame_count : ℚ
  frames : List F

/-- `frame_interval = max(1, int(original_fps / target_fps))`. -/
def frameInterval (original_fps target_fps : ℚ) : Nat :=
  (max 1 (pyInt (original_fps / target_fps))).toNat

/-- The sampling loop: emit the source frame at position `frame_idx` exactly
when `frame_idx % frame_interval == 0`, pairing it with `extracted_count`,
which increments only on emission. -/
def sampleFrames (interval : Nat) : List F → Nat → Nat → List (Nat × F)
  | [], _, _ => []
  | f :: rest, frame_idx, extracted_count =>
    if frame_idx % interval = 0 then
      (extracted_count, f) :: sampleFrames interval rest (frame_idx + 1) (extracted_count + 1)
    else
      sampleFrames interval rest (frame_idx + 1) extracted_count

/-- `video_utils.extract_frames_at_fps` as the total sequence of pairs the
generator yields when fully drained without errors.  (`target_fps = 0`
raises `ZeroDivisionError` in Python and is not modelled — Lean's total
`/` would silently give 0 there — so the theorems assume a positive
`target_fps`, the only values call sites produce.) -/
def extract_frames_at_fps (v : VideoSource F) (target_fps : ℚ) :
    Except String (List (Nat × F)) :=
  if !v.opens then Except.error "Cannot open video"
  else if v.fps ≤ 0 then Except.error "Invalid FPS for video"
  else Except.ok (sampleFrames (frameInterval v.fps target_fps) v.frames 0 0)

/-! ## Resource trace of the frame generator (for the release claim)

The generator's observable events on the capture handle.  Python semantics:
a generator suspends at each `yield`; when the consumer stops pulling and
the generator is closed, `GeneratorExit` is raised at the suspended `yield`;
an exception raised by `cap.read()` propagates out of the loop.  In the
source the trailing `cap.release()` stands after the `while` loop and is
not inside any `try/finally`, so control reaches it only when the loop ends
via its `break`. -/

inductive VEvent where
  | acquire : VEvent
  | emit : Nat → VEvent
  | release : VEvent
deriving DecidableEq

/-- The loop of `extract_frames_at_fps` as a trace.  `readFailsAt`: the
source frame index at which `cap.read()` raises, if any.  `pulls`: how many
frames the consumer pulls before closing the generator (`none` = drains it).
Both early exits unwind past the trailing `cap.release()`. -/
def sampleLoopTrace (interval : Nat) (readFailsAt : Option Nat) :
    List F → Nat → Nat → Option Nat → List VEvent
  | [], _, _, _ => [VEvent.release]
  | _ :: rest, frame_idx, extracted_count, pulls =>
    if readFailsAt = some frame_idx then []
    else if frame_idx % interval = 0 then
      match pulls with
      | some 0 => []
      | some (n + 1) =>
        VEvent.emit extracted_count ::
          sampleLoopTrace interval readFailsAt rest (frame_idx + 1) (extracted_count + 1) (some n)
      | none =>
        VEvent.emit extracted_count ::
          sampleLoopTrace interval readFailsAt rest (frame_idx + 1) (extracted_count + 1) none
    else
      sampleLoopTrace interval readFailsAt rest (frame_idx + 1) extracted_count pulls

/-- The full event trace of one call of `extract_frames_at_fps`: `acquire`
on a successful open; on non-positive fps the source releases and raises;
otherwise the loop runs under the consumer's behaviour. -/
def extract_frames_trace (v : VideoSource F) (target_fps : ℚ)
    (readFailsAt : Option Nat) (pulls : Option Nat) : List VEvent :=
  if !v.opens then []
  else if v.fps ≤ 0 then [VEvent.acquire, VEvent.release]
  else VEvent.acquire ::
    sampleLoopTrace (frameInterval v.fps target_fps) readFailsAt v.frames 0 0 pulls

/-! ## The streaming orchestrator mixins

`utils.VideoCapableLitAPI.predict_with_video_support` wraps each instance in
`try/except` and yields one synthetic error envelope on failure;
`video_utils.VideoCapableLitAPI.predict_with_video_support` (the one
imported by `run_manas_server.py` and `run_deepfaune_server.py`) has no
`try/except`, so the first exception propagates and aborts the stream.

Processing of one instance is abstracted by two capabilities: `psi` for
`_predict_single_image` (one envelope or an exception) and `pvid` for
`_predict_video` (the envelopes yielded before a possible exception, and
that exception if one occurred). -/

structure StreamRecord where
  filepath : String
  prediction : String
  prediction_score : Option ℚ
  error : Option String
  classifications : Option ClassificationsRecord
  detections : List DetectionRecord
  frame_number : Option Nat
  model_version : Option String
deriving DecidableEq

/-- One yielded dict `{"predictions": [...]}`. -/
structure Envelope where
  predictions : List StreamRecord
deriving DecidableEq

/-- A request instance: `filepath` plus `instance.get("sample_fps", 1)`. -/
structure ReqInstance where
  filepath : String
  sample_fps : Option ℚ
deriving DecidableEq

/-- The synthetic envelope yielded by the `except` branch of
`utils.predict_with_video_support`. -/
def error_envelope (filepath msg : String) : Envelope :=
  { predictions :=
      [{ filepath := filepath
         prediction := "error"
         prediction_score := some 0
         error := some msg
         classifications := none
         detections := []
         frame_number := none
         model_version := none }] }

/-- The body shared by both mixins: dispatch on `is_video_file`, yield the
video envelopes or the single-image envelope; the result is the list of
yielded envelopes plus the exception that interrupted the body, if any. -/
def processInstance (psi : String → Except String Envelope)
    (pvid : String → ℚ → List Envelope × Option String)
    (inst : ReqInstance) : List Envelope × Option String :=
  if is_video_file inst.filepath then pvid inst.filepath (inst.sample_fps.getD 1)
  else
    match psi inst.filepath with
    | Except.ok env => ([env], none)
    | Except.error e => ([], some e)

/-- `utils.VideoCapableLitAPI.predict_with_video_support`: per-instance
`try/except`; a failing instance contributes its already-yielded envelopes
followed by exactly one synthetic error envelope, and the stream goes on. -/
def utils_predict_with_video_support (psi : String → Except String Envelope)
    (pvid : String → ℚ → List Envelope × Option String)
    (instances : List ReqInstance) : List Envelope :=
  instances.flatMap (fun inst =>
    let r := processInstance psi pvid inst
    r.1 ++ (match r.2 with
            | some e => [error_envelope inst.filepath e]
            | none => []))

/-- `video_utils.VideoCapableLitAPI.predict_with_video_support`: no
`try/except`; the first exception aborts the stream after the envelopes
already yielded.  The result is (yielded envelopes, propagated exception). -/
def video_utils_predict_with_video_support (psi : String → Except String Envelope)
    (pvid : String → ℚ → List Envelope × Option String) :
    List ReqInstance → List Envelope × Option String
  | [] => ([], none)
  | inst :: rest =>
    let r := processInstance psi pvid inst
    match r.2 with
    | some e => (r.1, some e)
    | none =>
      let rr := video_utils_predict_with_video_support psi pvid rest
      (r.1 ++ rr.1, rr.2)

/-! ## The two servers' `predict` (single image)

The Detector and Classifier are out-of-scope capabilities: the detector's
output is the list of boxes (each `conf, cls, xywhn, xyxy`) plus its
class-name mapping, the classifier is a function from the cropped image to
its score vector `scores[0].tolist()`.  Building the detection records from
the zipped box tensors is `buildDetectionRecords`. -/

structure RawDetection where
  conf : ℚ
  cls : ℤ
  xywhn : List ℚ
  xyxy : List ℚ
deriving DecidableEq

def buildDetectionRecords (dets : List RawDetection) (class_names : ℤ → String) :
    List DetectionRecord :=
  dets.map (fun d => to_detection_record d.conf d.cls d.xywhn d.xyxy class_names)

structure PredictionRecord where
  filepath : String
  classifications : Option ClassificationsRecord
  detections : List DetectionRecord
  prediction : String
  prediction_score : Option ℚ
  model_version : String
deriving DecidableEq

/-- Total model of the classifier's label dict lookup (the claims only
concern mappings covering the used indices). -/
def mapGetD (m : List (Nat × String)) (i : Nat) : String :=
  ((m.find? (fun p => p.1 == i)).map (fun p => p.2)).getD ""

/-- `run_manas_server.predict`: build detection records; if no best animal
detection, answer "vide" (when the classifier's label set has it, else
"blank") for an empty detection list and the raw top detection otherwise;
with a best animal detection, crop its box, classify, and take the top-1 of
the top-5 classifications record.  `classifications_record["labels"][0]` on
an empty list is an `IndexError`. -/
def manas_predict (filepath : String) (dets : List RawDetection)
    (class_names : ℤ → String) (class_label_mapping : List (Nat × String))
    (image : NpImage) (classify : PilImage → List ℚ) (model_version : String) :
    Except String (List PredictionRecord) :=
  match select_best_animal_detection (buildDetectionRecords dets class_names) with
  | none =>
    match buildDetectionRecords dets class_names with
    | [] =>
      Except.ok
        [{ filepath := filepath
           classifications := none
           detections := buildDetectionRecords dets class_names
           prediction :=
             if (class_label_mapping.map (fun p => p.2)).contains "vide" then "vide"
             else "blank"
           prediction_score := none
           model_version := model_version }]
    | d₀ :: _ =>
      Except.ok
        [{ filepath := filepath
           classifications := none
           detections := buildDetectionRecords dets class_names
           prediction := d₀.label
           prediction_score := some d₀.conf
           model_version := model_version }]
  | some sel =>
    match crop_square_cv_to_pil image sel.xyxy with
    | Except.error e => Except.error e
    | Except.ok cropped =>
      match (to_classifications_record (classify cropped)
          (mapGetD class_label_mapping) 5).labels,
        (to_classifications_record (classify cropped)
          (mapGetD class_label_mapping) 5).scores with
      | l₀ :: _, s₀ :: _ =>
        Except.ok
          [{ filepath := filepath
             classifications :=
               some (to_classifications_record (classify cropped)
                 (mapGetD class_label_mapping) 5)
             detections := buildDetectionRecords dets class_names
             prediction := l₀
             prediction_score := some s₀
             model_version := model_version }]
      | _, _ => Except.error "IndexError: list index out of range"

/-- `run_deepfaune_server.CLASS_LABEL_MAPPING`. -/
def DEEPFAUNE_CLASS_LABEL_MAPPING : List (Nat × String) :=
  [(0, "bison"), (1, "badger"), (2, "ibex"), (3, "beaver"), (4, "red deer"),
   (5, "chamois"), (6, "cat"), (7, "goat"), (8, "roe deer"), (9, "dog"),
   (10, "fallow deer"), (11, "squirrel"), (12, "moose"), (13, "equid"),
   (14, "genet"), (15, "wolverine"), (16, "hedgehog"), (17, "lagomorph"),
   (18, "wolf"), (19, "otter"), (20, "lynx"), (21, "marmot"),
   (22, "micromammal"), (23, "mouflon"), (24, "sheep"), (25, "mustelid"),
   (26, "bird"), (27, "bear"), (28, "nutria"), (29, "raccoon"), (30, "fox"),
   (31, "reindeer"), (32, "wild boar"), (33, "cow")]

/-- `run_deepfaune_server.predict`: as Manas but the empty-detections answer
is always the literal "blank", and the classifications record is `{}` when
the selected box list is empty, in which case `classifications_record["labels"]`
is a `KeyError` (unreachable in practice: an empty box already fails the
crop's unpacking). -/
def deepfaune_predict (filepath : String) (dets : List RawDetection)
    (class_names : ℤ → String) (class_label_mapping : List (Nat × String))
    (image : NpImage) (classify : PilImage → List ℚ) (model_version : String) :
    Except String (List PredictionRecord) :=
  match select_best_animal_detection (buildDetectionRecords dets class_names) with
  | none =>
    match buildDetectionRecords dets class_names with
    | [] =>
      Except.ok
        [{ filepath := filepath
           classifications := none
           detections := buildDetectionRecords dets class_names
           prediction := "blank"
           prediction_score := none
           model_version := model_version }]
    | d₀ :: _ =>
      Except.ok
        [{ filepath := filepath
           classifications := none
           detections := buildDetectionRecords dets class_names
           prediction := d₀.label
           prediction_score := some d₀.conf
           model_version := model_version }]
  | some sel =>
    match crop_square_cv_to_pil image sel.xyxy with
    | Except.error e => Except.error e
    | Except.ok cropped =>
      if sel.xyxy.isEmpty then Except.error "KeyError: labels"
      else
        match (to_classifications_record (classify cropped)
            (mapGetD class_label_mapping) 5).labels,
          (to_classifications_record (classify cropped)
            (mapGetD class_label_mapping) 5).scores with
        | l₀ :: _, s₀ :: _ =>
          Except.ok
            [{ filepath := filepath
               classifications :=
                 some (to_classifications_record (classify cropped)
                   (mapGetD class_label_mapping) 5)
               detections := buildDetectionRecords dets class_names
               prediction := l₀
               prediction_score := some s₀
               model_version := model_version }]
        | _, _ => Except.error "IndexError: list index out of range"

/-! # Part 2: the theorems -/

theorem pyInt_eq_floor_of_nonneg (q : ℚ) (h : 0 ≤ q) : pyInt q = ⌊q⌋ := by
  unfold pyInt
  rw [Int.tdiv_eq_ediv (Rat.num_nonneg.mpr h) (by positivity)]
  exact Rat.floor_def.symm

theorem firstMaxBy_eq_none_iff (key : α → ℚ) (l : List α) :
    firstMaxBy key l = none ↔ l = [] := by
  cases l with
  | nil => simp [firstMaxBy]
  | cons x xs =>
    simp only [firstMaxBy]
    constructor
    · intro h
      cases hm : firstMaxBy key xs with
      | none => simp [hm] at h
      | some m =>
        rw [hm] at h
        by_cases hk : key m ≤ key x <;> simp [hk] at h
    · intro h
      exact absurd h (List.cons_ne_nil x xs)

theorem head?_orderedInsert (r : α → α → Prop) [DecidableRel r] (x : α) (l : List α) :
    (List.orderedInsert r x l).head? =
      some (match l.head? with
            | none => x
            | some b => if r x b then x else b) := by
  cases l with
  | nil => rfl
  | cons b t =>
    simp only [List.orderedInsert, List.head?]
    by_cases h : r x b <;> simp [h]

theorem head?_pySortedDesc (key : α → ℚ) (l : List α) :
    (pySortedDesc key l).head? = firstMaxBy key l := by
  induction l with
  | nil => rfl
  | cons x xs ih =>
    show (List.orderedInsert _ x (pySortedDesc key xs)).head? = _
    rw [head?_orderedInsert]
    rw [firstMaxBy]
    cases hm : firstMaxBy key xs with
    | none =>
      rw [hm] at ih
      have hnil : pySortedDesc key xs = [] := by
        cases h : pySortedDesc key xs with
        | nil => rfl
        | cons a t => rw [h] at ih; simp at ih
      rw [hnil]
      simp
    | some m =>
      rw [hm] at ih
      cases h : pySortedDesc key xs with
      | nil => rw [h] at ih; simp at ih
      | cons a t =>
        rw [h] at ih
        obtain rfl : a = m := by simpa using ih
        by_cases hk : key a ≤ key x <;> simp [hk]

/-- Structural characterisation of `firstMaxBy`: it is a member, every
element is bounded by it, and every element strictly before it has a
strictly smaller key (first-seen wins on ties). -/
theorem firstMaxBy_spec (key : α → ℚ) (l : List α) (r : α)
    (h : firstMaxBy key l = some r) :
    ∃ l₁ l₂, l = l₁ ++ r :: l₂ ∧ (∀ s ∈ l₁, key s < key r) ∧
      ∀ s ∈ l, key s ≤ key r := by
  induction l generalizing r with
  | nil => simp [firstMaxBy] at h
  | cons x xs ih =>
    rw [firstMaxBy] at h
    cases hm : firstMaxBy key xs with
    | none =>
      rw [hm] at h
      have hx : x = r := by cases h; rfl
      have hxs : xs = [] := (firstMaxBy_eq_none_iff key xs).mp hm
      subst hx; subst hxs
      exact ⟨[], [], rfl, by simp, by simp⟩
    | some m =>
      rw [hm] at h
      simp only at h
      obtain ⟨l₁, l₂, heq, hlt, hle⟩ := ih m hm
      by_cases hk : key m ≤ key x
      · rw [if_pos hk, Option.some_inj] at h
        subst h
        refine ⟨[], xs, rfl, by simp, ?_⟩
        intro s hs
        rcases List.mem_cons.mp hs with hs | hs
        · exact le_of_eq (by rw [hs])
        · exact le_trans (hle s hs) hk
      · rw [if_neg hk, Option.some_inj] at h
        subst h
        refine ⟨x :: l₁, l₂, by rw [heq]; rfl, ?_, ?_⟩
        · intro s hs
          rcases List.mem_cons.mp hs with hs | hs
          · rw [hs]; exact lt_of_not_le hk
          · exact hlt s hs
        · intro s hs
          rcases List.mem_cons.mp hs with hs | hs
          · rw [hs]; exact le_of_lt (lt_of_not_le hk)
          · exact hle s hs

theorem select_best_eq_firstMaxBy (l : List DetectionRecord) :
    select_best_animal_detection l =
      firstMaxBy (fun r => r.conf) (l.filter (fun r => r.label == "animal")) :=
  head?_pySortedDesc _ _

/-- Claim C7: `select_best_animal_detection` returns `none` exactly when no
record is labeled "animal" (in particular on the empty list); otherwise it
returns a record labeled "animal" of maximal `conf`, and among maximal ones
the first-seen (every "animal" record occurring before it has strictly
smaller `conf`); on the list animal 0.80, person 0.95, animal 0.60 it
returns the animal record with `conf` 0.80. -/
theorem C7_select_best_animal_detection (l : List DetectionRecord) :
    (select_best_animal_detection l = none ↔
      ∀ r ∈ l, r.label ≠ "animal") ∧
    (∀ r, select_best_animal_detection l = some r →
      r.label = "animal" ∧ r ∈ l ∧
      (∀ s ∈ l, s.label = "animal" → s.conf ≤ r.conf) ∧
      ∃ l₁ l₂, l.filter (fun s => s.label == "animal") = l₁ ++ r :: l₂ ∧
        ∀ s ∈ l₁, s.conf < r.conf) ∧
    select_best_animal_detection
        [⟨0, "animal", mkRat 8 10, [], []⟩, ⟨1, "person", mkRat 95 100, [], []⟩,
         ⟨2, "animal", mkRat 6 10, [], []⟩] =
      some ⟨0, "animal", mkRat 8 10, [], []⟩ ∧
    select_best_animal_detection [] = none := by
  refine ⟨?_, ?_, by decide, by decide⟩
  · rw [select_best_eq_firstMaxBy, Option.isNone_iff_eq_none.symm]
    rw [Option.isNone_iff_eq_none, firstMaxBy_eq_none_iff]
    rw [List.filter_eq_nil_iff]
    constructor
    · intro h r hr hlab
      exact h r hr (by simp [hlab])
    · intro h r hr
      simp only [beq_iff_eq]
      exact h r hr
  · intro r hr
    rw [select_best_eq_firstMaxBy] at hr
    obtain ⟨l₁, l₂, heq, hlt, hle⟩ := firstMaxBy_spec _ _ _ hr
    have hrmem : r ∈ l.filter (fun s => s.label == "animal") := by
      rw [heq]; exact List.mem_append_right _ (List.mem_cons_self _ _)
    have hlab : r.label = "animal" := by
      have := List.of_mem_filter hrmem
      simpa using this
    refine ⟨hlab, List.mem_of_mem_filter hrmem, ?_, l₁, l₂, heq, hlt⟩
    intro s hs hslab
    exact hle s (List.mem_filter.mpr ⟨hs, by simp [hslab]⟩)

theorem idxLe_total (key : Nat → ℚ) : ∀ i j, idxLe key i j ∨ idxLe key j i := by
  intro i j
  rcases lt_trichotomy (key i) (key j) with h | h | h
  · right; left; exact h
  · rcases Nat.le_total i j with hij | hij
    · left; right; exact ⟨h, hij⟩
    · right; right; exact ⟨h.symm, hij⟩
  · left; left; exact h

theorem idxLe_trans (key : Nat → ℚ) : ∀ i j m,
    idxLe key i j → idxLe key j m → idxLe key i m := by
  rintro i j m (hij | ⟨hij, hij2⟩) (hjm | ⟨hjm, hjm2⟩)
  · left; exact lt_trans hjm hij
  · left; rw [← hjm]; exact hij
  · left; rw [hij]; exact hjm
  · right; exact ⟨hij.trans hjm, le_trans hij2 hjm2⟩

theorem orderedInsert_agree (key : Nat → ℚ) (x : Nat) (l : List Nat)
    (hx : ∀ y ∈ l, x < y) :
    List.orderedInsert (fun a b => key b ≤ key a) x l =
      List.orderedInsert (idxLe key) x l := by
  induction l with
  | nil => rfl
  | cons b t ih =>
    have hxb : x < b := hx b (by simp)
    have hcond : key b ≤ key x ↔ idxLe key x b := by
      unfold idxLe
      constructor
      · intro h
        rcases lt_or_eq_of_le h with h | h
        · exact Or.inl h
        · exact Or.inr ⟨h.symm, le_of_lt hxb⟩
      · rintro (h | ⟨h, _⟩)
        · exact le_of_lt h
        · exact le_of_eq h.symm
    simp only [List.orderedInsert]
    by_cases h : key b ≤ key x
    · rw [if_pos h, if_pos (hcond.mp h)]
    · rw [if_neg h, if_neg (fun hc => h (hcond.mpr hc))]
      rw [ih (fun y hy => hx y (List.mem_cons_of_mem b hy))]

/-- On a strictly increasing index list, the stable descending sort by key
equals the sort by the refined total order `idxLe`. -/
theorem insertionSort_agree (key : Nat → ℚ) (l : List Nat)
    (hl : l.Pairwise (· < ·)) :
    List.insertionSort (fun a b => key b ≤ key a) l =
      List.insertionSort (idxLe key) l := by
  induction l with
  | nil => rfl
  | cons x xs ih =>
    have hpw := List.pairwise_cons.mp hl
    show List.orderedInsert _ x (List.insertionSort _ xs) = _
    rw [ih hpw.2]
    apply orderedInsert_agree
    intro y hy
    exact hpw.1 y ((List.perm_insertionSort (idxLe key) xs).mem_iff.mp hy)

/-- Claim C4: `to_classifications_record` selects the `k` highest-scoring
class indices (all of them when there are fewer than `k`), ordered by
descending score with ties broken by ascending class index, with `labels`
and `scores` index-aligned; on the spec's 7-class example with `k = 5` it
returns labels deer, fox, chamois, marten, badger with scores 0.40, 0.30,
0.10, 0.08, 0.05. -/
theorem C4_to_classifications_record (scores : List ℚ)
    (class_label_mapping : Nat → String) (k : Nat) :
    (∃ idx : List Nat,
      (to_classifications_record scores class_label_mapping k).labels =
        idx.map class_label_mapping ∧
      (to_classifications_record scores class_label_mapping k).scores =
        idx.map (fun i => scores.getD i 0) ∧
      idx.length = min k scores.length ∧
      (∀ i ∈ idx, i < scores.length) ∧ idx.Nodup ∧
      idx.Pairwise (fun i j =>
        scores.getD j 0 < scores.getD i 0 ∨
          (scores.getD i 0 = scores.getD j 0 ∧ i < j)) ∧
      (∀ j < scores.length, j ∉ idx → ∀ i ∈ idx,
        scores.getD j 0 < scores.getD i 0 ∨
          (scores.getD i 0 = scores.getD j 0 ∧ i < j))) ∧
    to_classifications_record
        [mkRat 5 100, mkRat 30 100, mkRat 10 100, mkRat 40 100,
         mkRat 2 100, mkRat 8 100, mkRat 5 100]
        (fun i => ["badger", "fox", "chamois", "deer", "hedgehog", "marten",
          "squirrel"].getD i "")
        5 =
      ⟨["deer", "fox", "chamois", "marten", "badger"],
       [mkRat 40 100, mkRat 30 100, mkRat 10 100, mkRat 8 100, mkRat 5 100]⟩ := by
  constructor
  · set key : Nat → ℚ := fun i => scores.getD i 0 with hkey
    set n := scores.length
    have hagree : pySortedDesc key (List.range n) =
        List.insertionSort (idxLe key) (List.range n) :=
      insertionSort_agree key (List.range n) (List.pairwise_lt_range n)
    set S := List.insertionSort (idxLe key) (List.range n) with hS
    have hperm : List.Perm S (List.range n) := List.perm_insertionSort _ _
    have hlen : S.length = n := hperm.length_eq.trans (List.length_range n)
    have hnodup : S.Nodup := hperm.nodup_iff.mpr (List.nodup_range n)
    have hsorted : S.Pairwise (idxLe key) := by
      haveI : IsTotal Nat (idxLe key) := ⟨idxLe_total key⟩
      haveI : IsTrans Nat (idxLe key) := ⟨idxLe_trans key⟩
      exact List.sorted_insertionSort (idxLe key) (List.range n)
    have hstrict : S.Pairwise (fun i j =>
        key j < key i ∨ (key i = key j ∧ i < j)) := by
      have hand := hsorted.and hnodup
      refine hand.imp ?_
      rintro i j ⟨hle | ⟨heq, hij⟩, hne⟩
      · exact Or.inl hle
      · exact Or.inr ⟨heq, lt_of_le_of_ne hij hne⟩
    have hidx : pyTopKIndices scores k = S.take k := by
      unfold pyTopKIndices
      rw [← hkey, hagree]
    have hmem_take : ∀ i ∈ S.take k, i < n := by
      intro i hi
      have : i ∈ List.range n := hperm.subset (List.mem_of_mem_take hi)
      exact List.mem_range.mp this
    refine ⟨pyTopKIndices scores k, rfl, rfl, ?_, ?_, ?_, ?_, ?_⟩
    · rw [hidx, List.length_take, hlen]
    · rw [hidx]; exact hmem_take
    · rw [hidx]; exact hnodup.sublist (List.take_sublist k S)
    · rw [hidx]; exact hstrict.sublist (List.take_sublist k S)
    · rw [hidx]
      intro j hj hjnot i hi
      have hjS : j ∈ S := hperm.mem_iff.mpr (List.mem_range.mpr hj)
      have hsplit : S = S.take k ++ S.drop k := (List.take_append_drop k S).symm
      have hjdrop : j ∈ S.drop k := by
        rcases List.mem_append.mp (hsplit ▸ hjS) with h | h
        · exact absurd h hjnot
        · exact h
      have := (List.pairwise_append.mp (hsplit ▸ hstrict)).2.2
      exact this i hi j hjdrop
  · decide

/-- Evaluation of the crop on a 3-channel image: the match and the channel
check reduce definitionally, leaving the slice bounds in code form. -/
theorem crop_eval (hgt wid : Nat) (pix : Nat → Nat → Nat → Nat)
    (x1 y1 x2 y2 : ℚ) (ey ex : ℚ)
    (hey : ey = if x2 - x1 > y2 - y1 then (pyInt ((x2 - x1 - (y2 - y1)) / 2) : ℚ) else 0)
    (hex : ex = if y2 - y1 > x2 - x1 then (pyInt ((y2 - y1 - (x2 - x1)) / 2) : ℚ) else 0) :
    crop_square_cv_to_pil ⟨[hgt, wid, 3], pix⟩ [x1, y1, x2, y2] =
      Except.ok
        { height := pySliceBound (min (pyInt (y2 + ey)) (hgt : ℤ)) hgt -
            pySliceBound (max 0 (pyInt (y1 - ey))) hgt
          width := pySliceBound (min (pyInt (x2 + ex)) (wid : ℤ)) wid -
            pySliceBound (max 0 (pyInt (x1 - ex))) wid
          pix := fun i j c =>
            pix (pySliceBound (max 0 (pyInt (y1 - ey))) hgt + i)
              (pySliceBound (max 0 (pyInt (x1 - ex))) wid + j) (2 - c) } := by
  subst hey hex
  rfl

theorem pyInt_nonneg (q : ℚ) (h : 0 ≤ q) : 0 ≤ pyInt q :=
  Int.tdiv_nonneg (Rat.num_nonneg.mpr h) (by positivity)

theorem pySliceBound_of_nonneg (i : ℤ) (n : Nat) (h : 0 ≤ i) :
    pySliceBound i n = min i.toNat n := by
  unfold pySliceBound
  rw [if_neg (by omega)]

/-- Claim C5 (amended): on a 3-channel image the crop never raises, and for
a box whose right and bottom coordinates are nonnegative it returns exactly
the region obtained by expanding the shorter side by
`floor((longer - shorter) / 2)` on each end and clamping with
`max(0, ·)` / `min(dimension, ·)`, with no padding and dimensions never
exceeding the source (a negative clamped upper bound instead wraps around,
see the counterexample). -/
theorem C5_crop_clamped_region (hgt wid : Nat) (pix : Nat → Nat → Nat → Nat)
    (x1 y1 x2 y2 : ℚ) (dy dx : ℤ)
    (hx2 : 0 ≤ x2) (hy2 : 0 ≤ y2)
    (hdy : dy = if y2 - y1 < x2 - x1 then ⌊(x2 - x1 - (y2 - y1)) / 2⌋ else 0)
    (hdx : dx = if x2 - x1 < y2 - y1 then ⌊(y2 - y1 - (x2 - x1)) / 2⌋ else 0) :
    ∃ out : PilImage,
      crop_square_cv_to_pil ⟨[hgt, wid, 3], pix⟩ [x1, y1, x2, y2] = Except.ok out ∧
      out.height = ((min (pyInt (y2 + (dy : ℚ))) (hgt : ℤ)) -
        max 0 (pyInt (y1 - (dy : ℚ)))).toNat ∧
      out.width = ((min (pyInt (x2 + (dx : ℚ))) (wid : ℤ)) -
        max 0 (pyInt (x1 - (dx : ℚ)))).toNat ∧
      out.height ≤ hgt ∧ out.width ≤ wid ∧
      ∀ i j c, i < out.height → j < out.width →
        out.pix i j c =
          pix ((max 0 (pyInt (y1 - (dy : ℚ)))).toNat + i)
            ((max 0 (pyInt (x1 - (dx : ℚ)))).toNat + j) (2 - c) := by
  have hdy0 : 0 ≤ dy := by
    rw [hdy]
    split
    · next hc => exact Int.le_floor.mpr (by push_cast; linarith)
    · exact le_refl 0
  have hdx0 : 0 ≤ dx := by
    rw [hdx]
    split
    · next hc => exact Int.le_floor.mpr (by push_cast; linarith)
    · exact le_refl 0
  have hey : (dy : ℚ) =
      (if x2 - x1 > y2 - y1 then (pyInt ((x2 - x1 - (y2 - y1)) / 2) : ℚ) else 0) := by
    rw [hdy]
    by_cases hc : y2 - y1 < x2 - x1
    · rw [if_pos hc, if_pos hc]
      rw [pyInt_eq_floor_of_nonneg _ (by linarith)]
    · rw [if_neg hc, if_neg hc]
      norm_num
  have hex : (dx : ℚ) =
      (if y2 - y1 > x2 - x1 then (pyInt ((y2 - y1 - (x2 - x1)) / 2) : ℚ) else 0) := by
    rw [hdx]
    by_cases hc : x2 - x1 < y2 - y1
    · rw [if_pos hc, if_pos hc]
      rw [pyInt_eq_floor_of_nonneg _ (by linarith)]
    · rw [if_neg hc, if_neg hc]
      norm_num
  have heval := crop_eval hgt wid pix x1 y1 x2 y2 (dy : ℚ) (dx : ℚ) hey hex
  have hA : (0 : ℤ) ≤ pyInt (y2 + (dy : ℚ)) := by
    apply pyInt_nonneg
    have : (0 : ℚ) ≤ (dy : ℚ) := by exact_mod_cast hdy0
    linarith
  have hAx : (0 : ℤ) ≤ pyInt (x2 + (dx : ℚ)) := by
    apply pyInt_nonneg
    have : (0 : ℚ) ≤ (dx : ℚ) := by exact_mod_cast hdx0
    linarith
  have hrhi : pySliceBound (min (pyInt (y2 + (dy : ℚ))) (hgt : ℤ)) hgt =
      (min (pyInt (y2 + (dy : ℚ))) (hgt : ℤ)).toNat :=
    (pySliceBound_of_nonneg _ _ (le_min hA (by omega))).trans (by omega)
  have hchi : pySliceBound (min (pyInt (x2 + (dx : ℚ))) (wid : ℤ)) wid =
      (min (pyInt (x2 + (dx : ℚ))) (wid : ℤ)).toNat :=
    (pySliceBound_of_nonneg _ _ (le_min hAx (by omega))).trans (by omega)
  have hrlo : pySliceBound (max 0 (pyInt (y1 - (dy : ℚ)))) hgt =
      min (max 0 (pyInt (y1 - (dy : ℚ)))).toNat hgt :=
    pySliceBound_of_nonneg _ _ (le_max_left _ _)
  have hclo : pySliceBound (max 0 (pyInt (x1 - (dx : ℚ)))) wid =
      min (max 0 (pyInt (x1 - (dx : ℚ)))).toNat wid :=
    pySliceBound_of_nonneg _ _ (le_max_left _ _)
  refine ⟨_, heval, ?_, ?_, ?_, ?_, ?_⟩
  · show pySliceBound _ hgt - pySliceBound _ hgt = _
    rw [hrhi, hrlo]
    omega
  · show pySliceBound _ wid - pySliceBound _ wid = _
    rw [hchi, hclo]
    omega
  · show pySliceBound _ hgt - pySliceBound _ hgt ≤ hgt
    rw [hrhi, hrlo]
    omega
  · show pySliceBound _ wid - pySliceBound _ wid ≤ wid
    rw [hchi, hclo]
    omega
  · intro i j c hi hj
    have hi' : i < pySliceBound (min (pyInt (y2 + (dy : ℚ))) (hgt : ℤ)) hgt -
        pySliceBound (max 0 (pyInt (y1 - (dy : ℚ)))) hgt := hi
    have hj' : j < pySliceBound (min (pyInt (x2 + (dx : ℚ))) (wid : ℤ)) wid -
        pySliceBound (max 0 (pyInt (x1 - (dx : ℚ)))) wid := hj
    show pix (pySliceBound _ hgt + i) (pySliceBound _ wid + j) (2 - c) = _
    rw [hrhi, hrlo] at hi'
    rw [hchi, hclo] at hj'
    rw [hrlo, hclo]
    congr 1
    · omega
    · omega

theorem pyInt_intCast (n : ℤ) : pyInt ((n : ℤ) : ℚ) = n := by
  unfold pyInt
  rw [Rat.num_intCast, Rat.den_intCast]
  exact Int.tdiv_one n

/-- Witness for C5: the spec's own example, the box `[75, 0, 125, 100]` in a
100 by 200 frame, expands x by 25 on each side and crops a 100 by 100
region. -/
theorem C5_crop_clamped_region_witness :
    ∃ out : PilImage,
      crop_square_cv_to_pil ⟨[100, 200, 3], fun _ _ _ => 0⟩ [75, 0, 125, 100] =
        Except.ok out ∧ out.height = 100 ∧ out.width = 100 := by
  obtain ⟨out, hok, hh, hw, _, _, _⟩ :=
    C5_crop_clamped_region 100 200 (fun _ _ _ => 0) 75 0 125 100 0 25
      (by norm_num) (by norm_num) (by norm_num) (by norm_num)
  refine ⟨out, hok, ?_, ?_⟩
  · rw [hh]
    rw [show (100 : ℚ) + ((0 : ℤ) : ℚ) = ((100 : ℤ) : ℚ) by norm_num]
    rw [show (0 : ℚ) - ((0 : ℤ) : ℚ) = ((0 : ℤ) : ℚ) by norm_num]
    rw [pyInt_intCast, pyInt_intCast]
    decide
  · rw [hw]
    rw [show (125 : ℚ) + ((25 : ℤ) : ℚ) = ((150 : ℤ) : ℚ) by norm_num]
    rw [show (75 : ℚ) - ((25 : ℤ) : ℚ) = ((50 : ℤ) : ℚ) by norm_num]
    rw [pyInt_intCast, pyInt_intCast]
    decide

/-- Counterexample for C5 as stated: for the box `[0, -3, 1, -2]` in a
5 by 5 frame the region clamped to `[0, height)` by `max(0, ·)` /
`min(dimension, ·)` is empty, but the crop returns 3 rows: the negative
upper bound `-2` is a from-the-end index for the Python slice, not an empty
clamp. -/
theorem C5_counterexample :
    ∃ out : PilImage,
      crop_square_cv_to_pil ⟨[5, 5, 3], fun _ _ _ => 0⟩ [0, -3, 1, -2] =
        Except.ok out ∧ out.height = 3 ∧
      (min (pyInt ((-2 : ℤ) : ℚ)) ((5 : ℕ) : ℤ) - max 0 (pyInt ((-3 : ℤ) : ℚ))).toNat = 0 := by
  have h := crop_eval 5 5 (fun _ _ _ => 0) 0 (-3) 1 (-2) 0 0
    (by rw [if_neg]; norm_num) (by rw [if_neg]; norm_num)
  rw [show ((-2 : ℚ) + 0) = ((-2 : ℤ) : ℚ) by norm_num] at h
  rw [show ((-3 : ℚ) - 0) = ((-3 : ℤ) : ℚ) by norm_num] at h
  rw [show ((1 : ℚ) + 0) = ((1 : ℤ) : ℚ) by norm_num] at h
  rw [show ((0 : ℚ) - 0) = ((0 : ℤ) : ℚ) by norm_num] at h
  rw [pyInt_intCast, pyInt_intCast, pyInt_intCast, pyInt_intCast] at h
  refine ⟨_, h, by decide, by rw [pyInt_intCast, pyInt_intCast]; decide⟩

/-- Claim C6 (amended): the crop raises for every image whose array does not
unpack into exactly three dimensions (in particular every 2-D grayscale
array) and for every 3-D array with fewer than 3 channels; an array with
more than 3 channels, however, is silently accepted (see the
counterexample). -/
theorem C6_crop_requires_three_channels (img : NpImage) (xyxy : List ℚ)
    (h : img.shape.length ≠ 3 ∨ ∃ a b c, img.shape = [a, b, c] ∧ c < 3) :
    ∃ msg, crop_square_cv_to_pil img xyxy = Except.error msg := by
  unfold crop_square_cv_to_pil
  split
  · split
    · next a₁ b₁ c₁ heq =>
      rcases h with h | ⟨a, b, c, habc, hc3⟩
      · rw [heq] at h
        simp at h
      · rw [heq] at habc
        obtain ⟨rfl, rfl, rfl⟩ : a₁ = a ∧ b₁ = b ∧ c₁ = c := by
          injection habc with h1 h2
          injection h2 with h2 h3
          injection h3 with h3 _
          exact ⟨h1, h2, h3⟩
        rw [if_pos hc3]
        exact ⟨_, rfl⟩
    · next =>
      exact ⟨_, rfl⟩
  · next =>
    exact ⟨_, rfl⟩

/-- Witness for C6: a 2-D grayscale array raises on crop. -/
theorem C6_crop_requires_three_channels_witness :
    ∃ msg, crop_square_cv_to_pil ⟨[2, 2], fun _ _ _ => 0⟩ [0, 0, 1, 1] =
      Except.error msg :=
  C6_crop_requires_three_channels ⟨[2, 2], fun _ _ _ => 0⟩ [0, 0, 1, 1]
    (Or.inl (by decide))

/-- Counterexample for C6 as stated: a 4-channel image (for example RGBA)
does not have exactly 3 channels, yet the crop succeeds — the shape still
unpacks into three values and the fancy index `(2, 1, 0)` is in bounds. -/
theorem C6_counterexample :
    (crop_square_cv_to_pil ⟨[1, 1, 4], fun _ _ _ => 0⟩ [0, 0, 1, 1]).isOk = true := by
  decide

/-- The sampling loop emits exactly the frames at source positions divisible
by the interval, re-enumerated from `e`. -/
theorem sampleFrames_eq (I : Nat) (l : List F) (i e : Nat) :
    sampleFrames I l i e =
      (((l.enumFrom i).filter (fun p => p.1 % I = 0)).map Prod.snd).enumFrom e := by
  induction l generalizing i e with
  | nil => rfl
  | cons f rest ih =>
    rw [sampleFrames, List.enumFrom]
    by_cases hc : i % I = 0
    · rw [if_pos hc]
      rw [List.filter_cons_of_pos (by simpa using hc)]
      rw [List.map_cons, List.enumFrom]
      rw [ih]
    · rw [if_neg hc]
      rw [List.filter_cons_of_neg (by simpa using hc)]
      rw [ih]

/-- Claim C8: for a video that opens with positive reported fps and a
positive `target_fps`, `extract_frames_at_fps` succeeds, uses
`frame_interval = max(1, floor(original_fps / target_fps))`, and yields
exactly the source frames whose position is divisible by the interval, each
paired with a 0-based index that increments once per emitted frame. -/
theorem C8_extract_frames_at_fps (v : VideoSource F) (target_fps : ℚ)
    (hopen : v.opens = true) (hfps : 0 < v.fps) (htgt : 0 < target_fps) :
    ∃ out, extract_frames_at_fps v target_fps = Except.ok out ∧
      frameInterval v.fps target_fps = (max 1 ⌊v.fps / target_fps⌋).toNat ∧
      out = (((v.frames.enum.filter
        (fun p => p.1 % frameInterval v.fps target_fps = 0)).map Prod.snd)).enum := by
  refine ⟨sampleFrames (frameInterval v.fps target_fps) v.frames 0 0, ?_, ?_, ?_⟩
  · unfold extract_frames_at_fps
    rw [hopen]
    rw [if_neg (by simp), if_neg (by simp [not_le, hfps])]
  · unfold frameInterval
    rw [pyInt_eq_floor_of_nonneg _ (le_of_lt (div_pos hfps htgt))]
  · exact sampleFrames_eq _ _ 0 0

/-- Witness for C8: a 30-fps video of 90 source frames sampled at
`target_fps = 1` has `frame_interval = 30` and emits the frames at source
positions 0, 30, 60 with extracted indices 0, 1, 2. -/
theorem C8_extract_frames_at_fps_witness :
    ∃ out, extract_frames_at_fps ⟨true, 30, 90, List.range 90⟩ (1 : ℚ) =
        Except.ok out ∧ out = [(0, 0), (1, 30), (2, 60)] := by
  obtain ⟨out, hok, hint, hout⟩ :=
    C8_extract_frames_at_fps ⟨true, 30, 90, List.range 90⟩ 1 rfl (by decide) (by decide)
  have hI : frameInterval 30 1 = 30 := by
    unfold frameInterval
    rw [show (30 : ℚ) / 1 = ((30 : ℤ) : ℚ) by norm_num, pyInt_intCast]
    decide
  rw [hI] at hout
  exact ⟨out, hok, hout.trans (by decide)⟩

/-- Claim C2 is violated by the code (code bug): for a 30-fps, 60-frame
video sampled at 1 fps, the capture is released at normal exhaustion of the
generator, but when the consumer stops after the first sampled frame and
closes the generator, or when `cap.read()` raises at source frame 5, the
trace ends without a release: the trailing `cap.release()` is not inside a
`try/finally`, so those exit paths skip it. -/
theorem C2_release_skipped_on_early_exit :
    extract_frames_trace (⟨true, 30, 60, List.replicate 60 0⟩ : VideoSource ℕ)
        1 none none =
      [VEvent.acquire, VEvent.emit 0, VEvent.emit 1, VEvent.release] ∧
    extract_frames_trace (⟨true, 30, 60, List.replicate 60 0⟩ : VideoSource ℕ)
        1 none (some 1) =
      [VEvent.acquire, VEvent.emit 0] ∧
    extract_frames_trace (⟨true, 30, 60, List.replicate 60 0⟩ : VideoSource ℕ)
        1 (some 5) none =
      [VEvent.acquire, VEvent.emit 0] ∧
    VEvent.release ∉
      extract_frames_trace (⟨true, 30, 60, List.replicate 60 0⟩ : VideoSource ℕ)
        1 none (some 1) ∧
    VEvent.release ∉
      extract_frames_trace (⟨true, 30, 60, List.replicate 60 0⟩ : VideoSource ℕ)
        1 (some 5) none := by
  have hI : frameInterval 30 1 = 30 := by
    unfold frameInterval
    rw [show (30 : ℚ) / 1 = ((30 : ℤ) : ℚ) by norm_num, pyInt_intCast]
    decide
  refine ⟨?_, ?_, ?_, ?_, ?_⟩ <;>
    { simp only [extract_frames_trace, hI]
      decide }

/-- Claim C1 is violated by the servers' code (code bug): on the batch
a.jpg, b.jpg, c.jpg where only b.jpg fails,
`utils.VideoCapableLitAPI.predict_with_video_support` yields exactly three
envelopes — the middle one the synthetic error record with prediction
"error", score 0.0, a non-empty error message, empty classifications and
empty detections, records 1 and 3 unaffected — but the
`video_utils.VideoCapableLitAPI.predict_with_video_support` actually
imported by `run_manas_server.py` and `run_deepfaune_server.py` has no
instance-boundary `try/except`: the exception propagates and aborts the
stream after the first record.  `StreamRecord` fields are in order
filepath, prediction, prediction_score, error, classifications, detections,
frame_number, model_version. -/
theorem C1_fault_isolation_only_in_utils_mixin :
    (utils_predict_with_video_support
        (fun fp => if fp = "b.jpg" then Except.error "No such file or directory"
          else Except.ok ⟨[⟨fp, "fox", some (mkRat 9 10), none, none, [], none, some "1.3"⟩]⟩)
        (fun _ _ => ([], none))
        [⟨"a.jpg", none⟩, ⟨"b.jpg", none⟩, ⟨"c.jpg", none⟩] =
      [⟨[⟨"a.jpg", "fox", some (mkRat 9 10), none, none, [], none, some "1.3"⟩]⟩,
       ⟨[⟨"b.jpg", "error", some 0, some "No such file or directory", none, [], none, none⟩]⟩,
       ⟨[⟨"c.jpg", "fox", some (mkRat 9 10), none, none, [], none, some "1.3"⟩]⟩]) ∧
    "No such file or directory" ≠ "" ∧
    (video_utils_predict_with_video_support
        (fun fp => if fp = "b.jpg" then Except.error "No such file or directory"
          else Except.ok ⟨[⟨fp, "fox", some (mkRat 9 10), none, none, [], none, some "1.3"⟩]⟩)
        (fun _ _ => ([], none))
        [⟨"a.jpg", none⟩, ⟨"b.jpg", none⟩, ⟨"c.jpg", none⟩] =
      ([⟨[⟨"a.jpg", "fox", some (mkRat 9 10), none, none, [], none, some "1.3"⟩]⟩],
       some "No such file or directory")) := by
  refine ⟨by decide, by decide, by decide⟩

theorem select_best_eq_none_of_no_animal (l : List DetectionRecord)
    (h : ∀ r ∈ l, r.label ≠ "animal") :
    select_best_animal_detection l = none := by
  rw [select_best_eq_firstMaxBy, firstMaxBy_eq_none_iff, List.filter_eq_nil_iff]
  intro r hr
  simpa using h r hr

/-- Claim C3: the single-image `predict` of both servers follows the
three-state policy.  With no detections, Manas answers the no-animal alias
"vide" when the classifier's label set has it and "blank" otherwise, with
empty classifications and no score; DeepFaune's label set has no "vide" and
it answers the literal "blank".  With detections but none labeled "animal",
both answer the first raw detection's label and conf with empty
classifications.  With a best animal detection, both classify the square
crop of its box and answer the top-1 label and score of the resulting top-5
classifications record.  `PredictionRecord` fields are in order filepath,
classifications, detections, prediction, prediction_score, model_version. -/
theorem C3_predict_three_state_policy (filepath : String)
    (dets : List RawDetection) (class_names : ℤ → String)
    (clm : List (Nat × String)) (image : NpImage)
    (classify : PilImage → List ℚ) (mv : String) :
    (dets = [] →
      manas_predict filepath dets class_names clm image classify mv =
        Except.ok [⟨filepath, none, [],
          if (clm.map (fun p => p.2)).contains "vide" then "vide" else "blank",
          none, mv⟩]) ∧
    (∀ d₀ ds, buildDetectionRecords dets class_names = d₀ :: ds →
      (∀ r ∈ buildDetectionRecords dets class_names, r.label ≠ "animal") →
      manas_predict filepath dets class_names clm image classify mv =
        Except.ok [⟨filepath, none, buildDetectionRecords dets class_names,
          d₀.label, some d₀.conf, mv⟩]) ∧
    (∀ sel, select_best_animal_detection (buildDetectionRecords dets class_names) =
        some sel →
      ∀ cropped, crop_square_cv_to_pil image sel.xyxy = Except.ok cropped →
      ∀ l₀ ls s₀ ss,
        (to_classifications_record (classify cropped) (mapGetD clm) 5).labels =
          l₀ :: ls →
        (to_classifications_record (classify cropped) (mapGetD clm) 5).scores =
          s₀ :: ss →
        manas_predict filepath dets class_names clm image classify mv =
          Except.ok [⟨filepath,
            some (to_classifications_record (classify cropped) (mapGetD clm) 5),
            buildDetectionRecords dets class_names, l₀, some s₀, mv⟩]) ∧
    (dets = [] →
      deepfaune_predict filepath dets class_names DEEPFAUNE_CLASS_LABEL_MAPPING
          image classify mv =
        Except.ok [⟨filepath, none, [], "blank", none, mv⟩]) ∧
    (DEEPFAUNE_CLASS_LABEL_MAPPING.map (fun p => p.2)).contains "vide" = false ∧
    (∀ d₀ ds, buildDetectionRecords dets class_names = d₀ :: ds →
      (∀ r ∈ buildDetectionRecords dets class_names, r.label ≠ "animal") →
      deepfaune_predict filepath dets class_names DEEPFAUNE_CLASS_LABEL_MAPPING
          image classify mv =
        Except.ok [⟨filepath, none, buildDetectionRecords dets class_names,
          d₀.label, some d₀.conf, mv⟩]) ∧
    (∀ sel, select_best_animal_detection (buildDetectionRecords dets class_names) =
        some sel →
      sel.xyxy ≠ [] →
      ∀ cropped, crop_square_cv_to_pil image sel.xyxy = Except.ok cropped →
      ∀ l₀ ls s₀ ss,
        (to_classifications_record (classify cropped)
          (mapGetD DEEPFAUNE_CLASS_LABEL_MAPPING) 5).labels = l₀ :: ls →
        (to_classifications_record (classify cropped)
          (mapGetD DEEPFAUNE_CLASS_LABEL_MAPPING) 5).scores = s₀ :: ss →
        deepfaune_predict filepath dets class_names DEEPFAUNE_CLASS_LABEL_MAPPING
            image classify mv =
          Except.ok [⟨filepath,
            some (to_classifications_record (classify cropped)
              (mapGetD DEEPFAUNE_CLASS_LABEL_MAPPING) 5),
            buildDetectionRecords dets class_names, l₀, some s₀, mv⟩]) := by
  refine ⟨?_, ?_, ?_, ?_, by decide, ?_, ?_⟩
  · rintro rfl
    rfl
  · intro d₀ ds hrec hnoanimal
    have hsel := select_best_eq_none_of_no_animal _ hnoanimal
    rw [hrec] at hsel
    simp only [manas_predict, hrec, hsel]
  · intro sel hsel cropped hcrop l₀ ls s₀ ss hl hs
    simp only [manas_predict, hsel, hcrop, hl, hs]
  · rintro rfl
    rfl
  · intro d₀ ds hrec hnoanimal
    have hsel := select_best_eq_none_of_no_animal _ hnoanimal
    rw [hrec] at hsel
    simp only [deepfaune_predict, hrec, hsel]
  · intro sel hsel hxyxy cropped hcrop l₀ ls s₀ ss hl hs
    have hempty : sel.xyxy.isEmpty = false := by
      simpa [List.isEmpty_iff] using hxyxy
    simp only [deepfaune_predict, hsel, hcrop, hempty, hl, hs]
    rfl

/-! ## Dict lemmas for the extra-field propagation claims -/

theorem dfind_cons (e : String × V) (d : List (String × V)) (k : String) :
    dfind (e :: d) k = if e.1 == k then some e.2 else dfind d k := by
  unfold dfind
  rw [List.find?_cons]
  cases h : ((e.1 == k) : Bool) <;> simp [h]

theorem dfind_dset_self (d : List (String × V)) (k : String) (v : V) :
    dfind (dset d k v) k = some v := by
  induction d with
  | nil => simp [dset, dfind_cons]
  | cons e rest ih =>
    simp only [dset]
    by_cases h : ((e.1 == k) : Bool) = true
    · rw [if_pos h]
      simp [dfind_cons]
    · rw [if_neg h]
      rw [dfind_cons]
      simp only at h ⊢
      rw [if_neg (by simpa using h)]
      exact ih

theorem dfind_dset_ne (d : List (String × V)) (k k₁ : String) (v : V)
    (h : k₁ ≠ k) : dfind (dset d k v) k₁ = dfind d k₁ := by
  have hkk : ((k == k₁) : Bool) = false := by
    simpa using fun e => h e.symm
  induction d with
  | nil => simp [dset, dfind_cons, hkk, dfind]
  | cons e rest ih =>
    simp only [dset]
    by_cases he : ((e.1 == k) : Bool) = true
    · rw [if_pos he]
      have he1 : ((e.1 == k₁) : Bool) = false := by
        rw [beq_eq_false_iff_ne]
        simp only [beq_iff_eq] at he
        rw [he]
        exact fun x => h x.symm
      rw [dfind_cons, dfind_cons]
      simp only [he1, hkk]
      rw [if_neg (by simp), if_neg (by simp)]
    · rw [if_neg he]
      rw [dfind_cons, dfind_cons]
      cases hek : ((e.1 == k₁) : Bool)
      · simp only [hek]
        rw [if_neg (by simp), if_neg (by simp)]
        exact ih
      · simp [hek]

theorem dmem_iff_mem_keys (d : List (String × V)) (k : String) :
    dmem d k = true ↔ k ∈ d.map Prod.fst := by
  unfold dmem
  rw [List.find?_isSome]
  constructor
  · rintro ⟨p, hp, hpk⟩
    simp only [beq_iff_eq] at hpk
    exact hpk ▸ List.mem_map_of_mem Prod.fst hp
  · intro h
    obtain ⟨p, hp, hk⟩ := List.mem_map.mp h
    exact ⟨p, hp, by simp [hk]⟩

theorem dfind_isSome_of_mem_keys (d : List (String × V)) (k : String)
    (h : k ∈ d.map Prod.fst) : (dfind d k).isSome := by
  have hm := (dmem_iff_mem_keys d k).mpr h
  unfold dmem at hm
  unfold dfind
  cases hf : List.find? (fun p => p.1 == k) d with
  | none => rw [hf] at hm; simp at hm
  | some p => simp

theorem dset_keys_of_mem (d : List (String × V)) (k : String) (v : V)
    (h : k ∈ d.map Prod.fst) :
    (dset d k v).map Prod.fst = d.map Prod.fst := by
  induction d with
  | nil => simp at h
  | cons e rest ih =>
    simp only [dset]
    by_cases he : ((e.1 == k) : Bool) = true
    · rw [if_pos he]
      simp only [beq_iff_eq] at he
      simp [he]
    · rw [if_neg he]
      simp only [List.map_cons]
      congr 1
      apply ih
      rw [List.map_cons] at h
      rcases List.mem_cons.mp h with h₁ | h₁
      · exact absurd h₁.symm (by simpa using he)
      · exact h₁

theorem dset_of_not_mem (d : List (String × V)) (k : String) (v : V)
    (h : k ∉ d.map Prod.fst) : dset d k v = d ++ [(k, v)] := by
  induction d with
  | nil => rfl
  | cons e rest ih =>
    simp only [dset]
    have he : ((e.1 == k) : Bool) = false := by
      simp only [beq_eq_false_iff_ne]
      intro hk
      exact h (by simp [hk])
    rw [if_neg (by simp [he])]
    rw [List.cons_append]
    congr 1
    exact ih (fun hm => h (by simp; right; exact (by simpa using hm)))

theorem mem_firstDedup (l : List String) (x : String) :
    x ∈ firstDedup l ↔ x ∈ l := by
  induction l with
  | nil => simp [firstDedup]
  | cons y ys ih =>
    rw [firstDedup]
    constructor
    · intro h
      rcases List.mem_cons.mp h with h | h
      · simp [h]
      · exact List.mem_cons_of_mem y (ih.mp (List.mem_of_mem_filter h))
    · intro h
      rcases List.mem_cons.mp h with h | h
      · simp [h]
      · by_cases hxy : x = y
        · simp [hxy]
        · exact List.mem_cons_of_mem y
            (List.mem_filter.mpr ⟨ih.mpr h, by simpa using hxy⟩)

theorem nodup_firstDedup (l : List String) : (firstDedup l).Nodup := by
  induction l with
  | nil => simp [firstDedup]
  | cons y ys ih =>
    rw [firstDedup]
    refine List.nodup_cons.mpr ⟨?_, ih.filter _⟩
    intro hmem
    have := List.of_mem_filter hmem
    simp at this

theorem length_firstDedup_le (l : List String) :
    (firstDedup l).length ≤ l.length := by
  induction l with
  | nil => simp [firstDedup]
  | cons y ys ih =>
    simp only [firstDedup, List.length_cons]
    have := List.length_filter_le (fun z => z != y) (firstDedup ys)
    omega

theorem filter_firstDedup (l : List String) (q : String → Bool) :
    (firstDedup l).filter q = firstDedup (l.filter q) := by
  induction l with
  | nil => rfl
  | cons y ys ih =>
    rw [firstDedup, List.filter_cons]
    by_cases hq : q y
    · rw [if_pos hq, List.filter_cons, if_pos hq, firstDedup, ← ih]
      rw [List.filter_comm]
    · rw [if_neg (by simpa using hq), List.filter_cons, if_neg (by simpa using hq), ← ih]
      rw [List.filter_filter]
      apply List.filter_congr
      intro z hz
      by_cases hzy : z = y
      · subst hzy
        simp [hq]
      · simp [hzy]

theorem dmem_eq_isSome_dfind (d : List (String × V)) (k : String) :
    dmem d k = (dfind d k).isSome := by
  unfold dmem dfind
  cases h : List.find? (fun p => p.1 == k) d <;> simp [h]

theorem dfind_filepath_eq (p : PyObj) (h : dmem p "filepath" = true) :
    dfind p "filepath" = some (fpOf p) := by
  rw [dmem_eq_isSome_dfind] at h
  obtain ⟨v, hv⟩ := Option.isSome_iff_exists.mp h
  rw [hv]
  unfold fpOf
  rw [hv]
  rfl

theorem buildByFilepath_ok (ps : List PyObj) (d : List (String × PyObj))
    (h : ∀ p ∈ ps, dmem p "filepath" = true) :
    buildByFilepath d ps =
      Except.ok (ps.foldl (fun d p => dset d (fpOf p) p) d) := by
  induction ps generalizing d with
  | nil => rfl
  | cons p rest ih =>
    rw [buildByFilepath]
    have hfp := dfind_filepath_eq p (h p (by simp))
    simp only [hfp]
    rw [List.foldl_cons]
    exact ih _ (fun q hq => h q (by simp [hq]))

theorem foldl_dset_keys (ps : List PyObj) (d : List (String × PyObj)) :
    (ps.foldl (fun d p => dset d (fpOf p) p) d).map Prod.fst =
      d.map Prod.fst ++
        firstDedup ((ps.map fpOf).filter
          (fun fp => !((d.map Prod.fst).contains fp))) := by
  induction ps generalizing d with
  | nil => simp [firstDedup]
  | cons p rest ih =>
    rw [List.foldl_cons, ih, List.map_cons, List.filter_cons]
    by_cases hmem : fpOf p ∈ d.map Prod.fst
    · rw [dset_keys_of_mem _ _ _ hmem]
      rw [if_neg (by simpa using List.elem_iff.mpr hmem)]
    · rw [dset_of_not_mem _ _ _ hmem, List.map_append]
      rw [if_pos (by simpa using fun hc => hmem (List.elem_iff.mp hc))]
      rw [firstDedup, List.append_assoc]
      congr 1
      rw [show List.map Prod.fst [((fpOf p, p) : String × PyObj)] = [fpOf p] from rfl]
      rw [List.singleton_append]
      congr 1
      rw [filter_firstDedup, List.filter_filter]
      congr 1
      apply List.filter_congr
      intro z hz
      by_cases hmz : z ∈ d.map Prod.fst
      · simp [hmz]
      · by_cases hzp : z = fpOf p <;> simp [hmz, hzp]

theorem foldl_dset_find (ps : List PyObj) (d : List (String × PyObj)) (k : String) :
    dfind (ps.foldl (fun d p => dset d (fpOf p) p) d) k =
      match (ps.filter (fun p => fpOf p == k)).getLast? with
      | some p => some p
      | none => dfind d k := by
  induction ps generalizing d with
  | nil => rfl
  | cons p rest ih =>
    rw [List.foldl_cons, List.filter_cons, ih]
    by_cases hpk : ((fpOf p == k) : Bool) = true
    · rw [if_pos hpk]
      have hfk : fpOf p = k := by simpa using hpk
      rw [List.getLast?_cons]
      cases hlast : (rest.filter (fun q => fpOf q == k)).getLast? with
      | some q => simp [hlast]
      | none =>
        simp only [hlast, Option.getD_none]
        rw [← hfk, dfind_dset_self]
    · rw [if_neg hpk]
      have hfk : fpOf p ≠ k := by simpa using hpk
      cases hlast : (rest.filter (fun q => fpOf q == k)).getLast? with
      | some q => rfl
      | none =>
        simp only
        exact dfind_dset_ne _ _ _ _ (fun he => hfk he.symm)

theorem foldl_dset_of_nodup (ps : List PyObj) (d : List (String × PyObj))
    (hnd : (ps.map fpOf).Nodup)
    (hdisj : ∀ p ∈ ps, fpOf p ∉ d.map Prod.fst) :
    ps.foldl (fun d p => dset d (fpOf p) p) d =
      d ++ ps.map (fun p => (fpOf p, p)) := by
  induction ps generalizing d with
  | nil => simp
  | cons p rest ih =>
    rw [List.foldl_cons, dset_of_not_mem _ _ _ (hdisj p (by simp))]
    rw [List.map_cons] at hnd
    obtain ⟨hhead, htail⟩ := List.nodup_cons.mp hnd
    have hdisj2 : ∀ q ∈ rest, fpOf q ∉ (d ++ [(fpOf p, p)]).map Prod.fst := by
      intro q hq
      rw [List.map_append]
      intro hin
      rcases List.mem_append.mp hin with hin | hin
      · exact hdisj q (by simp [hq]) hin
      · have : fpOf q = fpOf p := by simpa using hin
        exact hhead (this ▸ List.mem_map_of_mem fpOf hq)
    rw [ih _ htail hdisj2]
    rw [List.map_cons, List.append_assoc]
    rfl

theorem map_snd_eq_of_nodup (d : List (String × PyObj))
    (h : (d.map Prod.fst).Nodup) :
    d.map Prod.snd = (d.map Prod.fst).map (fun k => (dfind d k).getD []) := by
  induction d with
  | nil => rfl
  | cons e rest ih =>
    rw [List.map_cons] at h
    obtain ⟨hnot, hnd⟩ := List.nodup_cons.mp h
    simp only [List.map_cons]
    congr 1
    · rw [dfind_cons, if_pos (by simp)]
      rfl
    · rw [ih hnd]
      apply List.map_congr_left
      intro k hk
      rw [dfind_cons, if_neg]
      simp only [beq_iff_eq]
      intro he
      exact hnot (he ▸ hk)

theorem dfind_map_pair (ps : List PyObj) (hnd : (ps.map fpOf).Nodup)
    (i : Nat) (hi : i < ps.length) :
    dfind (ps.map (fun p => (fpOf p, p))) (fpOf (ps.getD i [])) =
      some (ps.getD i []) := by
  induction ps generalizing i with
  | nil => simp at hi
  | cons p rest ih =>
    rw [List.map_cons] at hnd ⊢
    obtain ⟨hhead, htail⟩ := List.nodup_cons.mp hnd
    cases i with
    | zero =>
      rw [dfind_cons, if_pos (by simp [List.getD])]
      simp [List.getD]
    | succ j =>
      have hj : j < rest.length := by simpa using hi
      have hdj : (p :: rest).getD (j + 1) [] = rest.getD j [] := by
        simp [List.getD]
      rw [hdj, dfind_cons, if_neg, ih htail j hj]
      simp only [beq_iff_eq]
      intro he
      apply hhead
      rw [he]
      have : rest.getD j [] ∈ rest := by
        rw [List.getD_eq_getElem?_getD]
        cases hg : rest[j]? with
        | none => exact absurd (List.getElem?_eq_none_iff.mp hg) (by omega)
        | some q => simpa using List.getElem?_mem hg
      exact List.mem_map_of_mem fpOf this

theorem applyField_spec (inst : PyObj) (f : String) (d : List (String × PyObj))
    (fp : String) (hfp : dfind inst "filepath" = some fp)
    (hd : fp ∈ d.map Prod.fst) :
    ∃ d₁, applyField inst f d = Except.ok d₁ ∧
      d₁.map Prod.fst = d.map Prod.fst ∧
      (∀ k, k ≠ fp → dfind d₁ k = dfind d k) ∧
      dfind d₁ fp = some (if dmem inst f then
          dset ((dfind d fp).getD []) f ((dfind inst f).getD "")
        else (dfind d fp).getD []) := by
  obtain ⟨r, hr⟩ := Option.isSome_iff_exists.mp (dfind_isSome_of_mem_keys d fp hd)
  unfold applyField
  by_cases hmem : dmem inst f = true
  · rw [if_pos hmem]
    have hvf : (dfind inst f).isSome := by
      rw [← dmem_eq_isSome_dfind]
      exact hmem
    obtain ⟨v, hv⟩ := Option.isSome_iff_exists.mp hvf
    simp only [hfp, hr, hv]
    refine ⟨_, rfl, dset_keys_of_mem _ _ _ hd,
      fun k hk => dfind_dset_ne _ _ _ _ hk, ?_⟩
    rw [dfind_dset_self]
    simp [hmem, hr, hv]
  · rw [if_neg hmem]
    refine ⟨d, rfl, rfl, fun _ _ => rfl, ?_⟩
    rw [hr]
    simp [hmem]

theorem applyFields_spec (inst : PyObj) (fields : List String)
    (d : List (String × PyObj)) (fp : String)
    (hfp : dfind inst "filepath" = some fp) (hd : fp ∈ d.map Prod.fst) :
    ∃ d₁, applyFields inst fields d = Except.ok d₁ ∧
      d₁.map Prod.fst = d.map Prod.fst ∧
      (∀ k, k ≠ fp → dfind d₁ k = dfind d k) ∧
      dfind d₁ fp = some (recUpdate inst fields ((dfind d fp).getD [])) := by
  induction fields generalizing d with
  | nil =>
    obtain ⟨r, hr⟩ := Option.isSome_iff_exists.mp (dfind_isSome_of_mem_keys d fp hd)
    refine ⟨d, rfl, rfl, fun _ _ => rfl, ?_⟩
    rw [hr]
    rfl
  | cons f fs ih =>
    obtain ⟨d₁, h1ok, h1keys, h1other, h1fp⟩ := applyField_spec inst f d fp hfp hd
    obtain ⟨d₂, h2ok, h2keys, h2other, h2fp⟩ := ih d₁ (h1keys ▸ hd)
    refine ⟨d₂, ?_, h2keys.trans h1keys, ?_, ?_⟩
    · simp only [applyFields, h1ok]
      exact h2ok
    · intro k hk
      rw [h2other k hk, h1other k hk]
    · rw [h2fp, h1fp]
      simp only [Option.getD_some]
      rw [recUpdate, recUpdate, List.foldl_cons]

theorem applyInstances_spec (fields : List String) (instances : List PyObj)
    (d : List (String × PyObj))
    (hi : ∀ inst ∈ instances, dfind inst "filepath" = some (fpOf inst))
    (hin : ∀ inst ∈ instances, fpOf inst ∈ d.map Prod.fst) :
    ∃ d₁, applyInstances fields instances d = Except.ok d₁ ∧
      d₁.map Prod.fst = d.map Prod.fst ∧
      ∀ k, dfind d₁ k = (dfind d k).map (fun r =>
        (instances.filter (fun inst => fpOf inst == k)).foldl
          (fun r inst => recUpdate inst fields r) r) := by
  induction instances generalizing d with
  | nil =>
    refine ⟨d, rfl, rfl, ?_⟩
    intro k
    cases h : dfind d k <;> simp [h]
  | cons inst rest ih =>
    obtain ⟨d₁, h1ok, h1keys, h1other, h1fp⟩ :=
      applyFields_spec inst fields d (fpOf inst) (hi inst (by simp))
        (hin inst (by simp))
    obtain ⟨d₂, h2ok, h2keys, h2find⟩ := ih d₁
      (fun q hq => hi q (by simp [hq]))
      (fun q hq => h1keys ▸ hin q (by simp [hq]))
    refine ⟨d₂, ?_, h2keys.trans h1keys, ?_⟩
    · simp only [applyInstances, h1ok]
      exact h2ok
    · intro k
      rw [h2find k, List.filter_cons]
      by_cases hk : ((fpOf inst == k) : Bool) = true
      · rw [if_pos hk]
        have hkk : fpOf inst = k := by simpa using hk
        subst hkk
        obtain ⟨r, hr⟩ := Option.isSome_iff_exists.mp
          (dfind_isSome_of_mem_keys d (fpOf inst) (hin inst (by simp)))
        rw [h1fp, hr]
        simp [List.foldl_cons]
      · rw [if_neg hk]
        have hkk : fpOf inst ≠ k := by simpa using hk
        rw [h1other k (fun he => hkk he.symm)]

theorem recUpdate_find (inst : PyObj) (fields : List String) (r : PyObj)
    (f : String) :
    dfind (recUpdate inst fields r) f =
      if f ∈ fields ∧ (dfind inst f).isSome then dfind inst f
      else dfind r f := by
  induction fields generalizing r with
  | nil => simp [recUpdate]
  | cons g gs ih =>
    rw [recUpdate, List.foldl_cons]
    rw [show List.foldl (fun r f => if dmem inst f then
        dset r f ((dfind inst f).getD "") else r)
        (if dmem inst g then dset r g ((dfind inst g).getD "") else r) gs =
      recUpdate inst gs (if dmem inst g then
        dset r g ((dfind inst g).getD "") else r) from rfl]
    rw [ih]
    by_cases hgs : f ∈ gs ∧ (dfind inst f).isSome
    · rw [if_pos hgs, if_pos ⟨List.mem_cons_of_mem g hgs.1, hgs.2⟩]
    · rw [if_neg hgs]
      by_cases hgf : g = f
      · subst hgf
        by_cases hmem : dmem inst g = true
        · rw [if_pos hmem, dfind_dset_self]
          have : (dfind inst g).isSome := by
            rw [← dmem_eq_isSome_dfind]
            exact hmem
          obtain ⟨v, hv⟩ := Option.isSome_iff_exists.mp this
          rw [if_pos ⟨by simp, this⟩, hv]
          simp
        · rw [if_neg hmem]
          rw [if_neg ?_]
          rintro ⟨_, hsome⟩
          rw [← dmem_eq_isSome_dfind] at hsome
          exact hmem hsome
      · have hstep : dfind (if dmem inst g then
            dset r g ((dfind inst g).getD "") else r) f = dfind r f := by
          by_cases hmem : dmem inst g = true
          · rw [if_pos hmem]
            exact dfind_dset_ne _ _ _ _ (fun he => hgf he.symm)
          · rw [if_neg hmem]
        rw [hstep, if_neg ?_]
        rintro ⟨hmemf, hsome⟩
        rcases List.mem_cons.mp hmemf with he | he
        · exact hgf he.symm
        · exact hgs ⟨he, hsome⟩

theorem recFold_find (fields : List String) (matched : List PyObj) (r : PyObj)
    (f : String) :
    dfind (matched.foldl (fun r inst => recUpdate inst fields r) r) f =
      if f ∈ fields then
        match (matched.filterMap (fun inst => dfind inst f)).getLast? with
        | some v => some v
        | none => dfind r f
      else dfind r f := by
  induction matched generalizing r with
  | nil =>
    cases hf : decide (f ∈ fields) <;> simp_all
  | cons inst rest ih =>
    rw [List.foldl_cons, ih, List.filterMap_cons]
    by_cases hmemf : f ∈ fields
    · rw [if_pos hmemf, if_pos hmemf]
      cases hv : dfind inst f with
      | none =>
        cases hlast : (rest.filterMap (fun inst => dfind inst f)).getLast? with
        | some w => simp [hlast]
        | none =>
          simp only [hlast]
          rw [recUpdate_find, if_neg ?_]
          rintro ⟨_, hsome⟩
          rw [hv] at hsome
          exact absurd hsome (by simp)
      | some v =>
        rw [List.getLast?_cons]
        cases hlast : (rest.filterMap (fun inst => dfind inst f)).getLast? with
        | some w => simp [hlast]
        | none =>
          simp only [hlast, Option.getD_none]
          rw [recUpdate_find, if_pos ⟨hmemf, by simp [hv]⟩, hv]
    · rw [if_neg hmemf, if_neg hmemf]
      rw [recUpdate_find, if_neg (fun hc => hmemf hc.1)]

/-- Claim C10: `propagate_extra_fields` re-keys the prediction list by
filepath before merging: the output (here with no instances, isolating the
re-keying) lists, in first-occurrence order of the distinct filepaths, the
last record carrying each filepath; earlier duplicates are silently
dropped, so the output can be shorter than the input — concretely, two
records for "a.jpg" come back as just the second one. -/
theorem C10_rekey_by_filepath_keeps_last (extra_fields : List String)
    (predictions : List PyObj)
    (hp : ∀ p ∈ predictions, dmem p "filepath" = true) :
    ∃ out, propagate_extra_fields extra_fields [] predictions = Except.ok out ∧
      out = (firstDedup (predictions.map fpOf)).map
        (fun fp => ((predictions.filter (fun p => fpOf p == fp)).getLast?).getD []) ∧
      out.length = (firstDedup (predictions.map fpOf)).length ∧
      out.length ≤ predictions.length ∧
      propagate_extra_fields [] []
        [[("filepath", "a.jpg"), ("label", "fox")],
         [("filepath", "a.jpg"), ("label", "badger")]] =
        Except.ok [[("filepath", "a.jpg"), ("label", "badger")]] := by
  have hbuild := buildByFilepath_ok predictions [] hp
  set D := predictions.foldl (fun d p => dset d (fpOf p) p)
    ([] : List (String × PyObj)) with hD
  have hkeys : D.map Prod.fst = firstDedup (predictions.map fpOf) := by
    rw [hD, foldl_dset_keys]
    simp
  have hfind : ∀ k, dfind D k =
      (predictions.filter (fun p => fpOf p == k)).getLast? := by
    intro k
    rw [hD, foldl_dset_find]
    cases h : (predictions.filter (fun p => fpOf p == k)).getLast? with
    | some q => rfl
    | none => rfl
  have hnodupkeys : (D.map Prod.fst).Nodup := by
    rw [hkeys]
    exact nodup_firstDedup _
  have hlen : (D.map Prod.snd).length = (firstDedup (predictions.map fpOf)).length := by
    rw [List.length_map, ← hkeys, List.length_map]
  refine ⟨D.map Prod.snd, ?_, ?_, hlen, ?_, by rfl⟩
  · simp only [propagate_extra_fields, hbuild]
    rfl
  · rw [map_snd_eq_of_nodup D hnodupkeys, hkeys]
    apply List.map_congr_left
    intro k hk
    rw [hfind k]
  · rw [hlen]
    have h1 := length_firstDedup_le (predictions.map fpOf)
    rw [List.length_map] at h1
    exact h1

/-- Witness for C10: two records sharing filepath "a.jpg" come back as one
record — the later one. -/
theorem C10_rekey_by_filepath_keeps_last_witness :
    ∃ out, propagate_extra_fields []
        ([] : List PyObj)
        [[("filepath", "a.jpg"), ("label", "fox")],
         [("filepath", "a.jpg"), ("label", "badger")]] =
      Except.ok out ∧ out.length = 1 := by
  obtain ⟨out, hok, hval, _, _, _⟩ :=
    C10_rekey_by_filepath_keeps_last []
      [[("filepath", "a.jpg"), ("label", "fox")],
       [("filepath", "a.jpg"), ("label", "badger")]]
      (by decide)
  refine ⟨out, hok, ?_⟩
  rw [hval]
  decide

/-- Claim C9: for every declared extra field, `propagate_extra_fields`
copies the field's value from each instance carrying it onto the prediction
record whose filepath equals the instance's filepath (exact string match);
when several instances share a filepath, later instances overwrite earlier
ones (last-write-wins in request order); a field absent from every matching
instance leaves the record's value unchanged (no error, no null insertion),
and fields outside the declared list are untouched.  Stated for requests
whose predictions have pairwise distinct filepaths (the re-keying on
colliding prediction filepaths is claim C10's subject) and whose instances
all match some prediction (otherwise the Python raises `KeyError`). -/
theorem C9_propagate_extra_fields (extra_fields : List String)
    (instances predictions : List PyObj)
    (hp : ∀ p ∈ predictions, dmem p "filepath" = true)
    (hnodup : (predictions.map fpOf).Nodup)
    (hi : ∀ inst ∈ instances, dmem inst "filepath" = true)
    (hifp : ∀ inst ∈ instances, fpOf inst ∈ predictions.map fpOf) :
    ∃ out, propagate_extra_fields extra_fields instances predictions =
        Except.ok out ∧
      out.length = predictions.length ∧
      (∀ i, i < predictions.length → ∀ f, f ∈ extra_fields →
        dfind (out.getD i []) f =
          match ((instances.filter
              (fun inst => fpOf inst == fpOf (predictions.getD i []))).filterMap
              (fun inst => dfind inst f)).getLast? with
          | some v => some v
          | none => dfind (predictions.getD i []) f) ∧
      (∀ i, i < predictions.length → ∀ f, f ∉ extra_fields →
        dfind (out.getD i []) f = dfind (predictions.getD i []) f) ∧
      propagate_extra_fields ["camera_id"]
        [[("filepath", "a.jpg"), ("camera_id", "cam1")]]
        [[("filepath", "a.jpg")]] =
        Except.ok [[("filepath", "a.jpg"), ("camera_id", "cam1")]] ∧
      propagate_extra_fields ["camera_id"]
        [[("filepath", "a.jpg")]]
        [[("filepath", "a.jpg"), ("label", "fox")]] =
        Except.ok [[("filepath", "a.jpg"), ("label", "fox")]] := by
  have hbuild := buildByFilepath_ok predictions [] hp
  rw [foldl_dset_of_nodup predictions [] hnodup (by simp)] at hbuild
  rw [List.nil_append] at hbuild
  have hkeys0 : (predictions.map (fun p => (fpOf p, p))).map Prod.fst =
      predictions.map fpOf := by
    rw [List.map_map]
    rfl
  obtain ⟨d₂, hapok, hapkeys, hapfind⟩ :=
    applyInstances_spec extra_fields instances
      (predictions.map (fun p => (fpOf p, p)))
      (fun inst hin => dfind_filepath_eq inst (hi inst hin))
      (fun inst hin => by rw [hkeys0]; exact hifp inst hin)
  have hkeys2 : d₂.map Prod.fst = predictions.map fpOf := hapkeys.trans hkeys0
  have hnodup2 : (d₂.map Prod.fst).Nodup := by
    rw [hkeys2]
    exact hnodup
  have hmain : ∀ i, i < predictions.length →
      (d₂.map Prod.snd).getD i [] =
        (instances.filter
          (fun inst => fpOf inst == fpOf (predictions.getD i []))).foldl
          (fun r inst => recUpdate inst extra_fields r)
          (predictions.getD i []) := by
    intro i hilt
    rw [map_snd_eq_of_nodup d₂ hnodup2, hkeys2]
    rw [List.getD_eq_getElem?_getD, List.getElem?_map, List.getElem?_map]
    cases hg : predictions[i]? with
    | none => exact absurd (List.getElem?_eq_none_iff.mp hg) (by omega)
    | some q =>
      have hq : predictions.getD i [] = q := by
        rw [List.getD_eq_getElem?_getD, hg]
        rfl
      rw [hq]
      show ((dfind d₂ (fpOf q)).getD []) = _
      rw [hapfind (fpOf q)]
      have hdq : dfind (predictions.map (fun p => (fpOf p, p))) (fpOf q) =
          some q := by
        have := dfind_map_pair predictions hnodup i hilt
        rw [hq] at this
        exact this
      rw [hdq]
      rfl
  refine ⟨d₂.map Prod.snd, ?_, ?_, ?_, ?_, by rfl, by rfl⟩
  · simp only [propagate_extra_fields, hbuild, hapok]
  · rw [List.length_map]
    have : (d₂.map Prod.fst).length = (predictions.map fpOf).length := by
      rw [hkeys2]
    rw [List.length_map, List.length_map] at this
    exact this
  · intro i hilt f hf
    rw [hmain i hilt, recFold_find, if_pos hf]
  · intro i hilt f hf
    rw [hmain i hilt, recFold_find, if_neg hf]

/-- Witness for C9: the spec's example — instance
`{filepath: a.jpg, camera_id: cam1}` merged against prediction
`{filepath: a.jpg}` yields the record with `camera_id` added. -/
theorem C9_propagate_extra_fields_witness :
    ∃ out, propagate_extra_fields ["camera_id"]
        [[("filepath", "a.jpg"), ("camera_id", "cam1")]]
        [[("filepath", "a.jpg")]] =
      Except.ok out ∧
      (∀ i, i < 1 → ∀ f, f ∉ (["camera_id"] : List String) →
        dfind (out.getD i []) f =
          dfind (([[("filepath", "a.jpg")]] : List PyObj).getD i []) f) := by
  obtain ⟨out, hok, _, _, hunt, _, _⟩ :=
    C9_propagate_extra_fields ["camera_id"]
      [[("filepath", "a.jpg"), ("camera_id", "cam1")]]
      [[("filepath", "a.jpg")]]
      (by decide) (by decide) (by decide) (by decide)
  exact ⟨out, hok, hunt⟩

end Biowatch
